import Mathlib

/-!
Shallow embedding of the godscache caching client (src/client.go) and the
claims about it.  Go values stored in the cache (`interface{}` holding a
struct pointer) are modelled as a runtime type name plus an opaque payload;
Go maps are modelled as association lists with Go's replace-on-insert
semantics; the datastore (the `Parent` client) is modelled as a key/value
map written through on Put and read on cache misses.
-/

namespace Godscache

/-- Model of a Go `interface{}` value holding a pointer to a struct:
`typeName` is `reflect.TypeOf(v).String()` and `data` stands for the
struct's field contents. -/
structure GoVal where
  typeName : String
  data : Nat
deriving DecidableEq, Repr

/-- Lookup in a Go map modelled as an association list. -/
def mlookup {α : Type} : List (String × α) → String → Option α
  | [], _ => none
  | (k', v) :: rest, k => if k' = k then some v else mlookup rest k

/-- Go map assignment `m[k] = v`: replaces the binding if present, else adds it. -/
def minsert {α : Type} : List (String × α) → String → α → List (String × α)
  | [], k, v => [(k, v)]
  | (k', v') :: rest, k, v =>
      if k' = k then (k, v) :: rest else (k', v') :: minsert rest k v

/-- Go `delete(m, k)`: removes the binding for `k` if present. -/
def merase {α : Type} (m : List (String × α)) (k : String) : List (String × α) :=
  m.filter (fun p => p.1 != k)

/-- The godscache Client (src/client.go lines 39-47) together with the
contents of the backing datastore (`Parent`).  Keys are their canonical
string form (`key.String()`).  `MaxCacheSize` is a `Nat` because `NewClient`
cannot construct a client with a negative size (the `make` of `cacheKeys`
panics at run time on a negative capacity). -/
structure Client where
  store : List (String × GoVal)
  Cache : List (String × GoVal)
  MaxCacheSize : Nat
  cacheKeys : List String
deriving DecidableEq, Repr

/-- A client as built by `NewClient` (empty cache), over a given datastore. -/
def initClient (store : List (String × GoVal)) (maxCacheSize : Nat) : Client :=
  { store := store, Cache := [], MaxCacheSize := maxCacheSize, cacheKeys := [] }

/-- Client.Put (src/client.go lines 90-129) on the success path: write through
to the datastore, insert into the cache, append the key string to `cacheKeys`,
and if `len(cacheKeys) > MaxCacheSize` delete `cacheKeys[0]` from the cache
and drop it from the slice. -/
def Put (c : Client) (keyStr : String) (src : GoVal) : Client :=
  let store' := minsert c.store keyStr src
  let cache' := minsert c.Cache keyStr src
  let keys' := c.cacheKeys ++ [keyStr]
  if keys'.length > c.MaxCacheSize then
    { store := store', Cache := merase cache' (keys'.headD ""),
      MaxCacheSize := c.MaxCacheSize, cacheKeys := keys'.tail }
  else
    { store := store', Cache := cache',
      MaxCacheSize := c.MaxCacheSize, cacheKeys := keys' }

/-- Errors surfaced by the modelled operations. -/
inductive GoErr
  | typeMismatch
  | notFound
  | invalidKey
deriving DecidableEq, Repr

/-- Result of Client.Get: the error (if any), the contents of `dst` after the
call, and the client state after the call. -/
structure GetOut where
  err : Option GoErr
  dst : GoVal
  state : Client
deriving DecidableEq, Repr

/-- Client.Get (src/client.go lines 132-184).  `dst` is the struct pointer's
current contents; its `typeName` is the destination's declared type.  On a
cache hit the type names are compared and on mismatch an error is returned
with no copy; on a miss the datastore is read into `dst` (not-found
propagated), then the result is cached and the key appended to `cacheKeys`
with no eviction check. -/
def Get (c : Client) (keyStr : String) (dst : GoVal) : GetOut :=
  match mlookup c.Cache keyStr with
  | none =>
      match mlookup c.store keyStr with
      | none => { err := some .notFound, dst := dst, state := c }
      | some sv =>
          { err := none, dst := sv,
            state := { c with Cache := minsert c.Cache keyStr sv,
                              cacheKeys := c.cacheKeys ++ [keyStr] } }
  | some cacheDst =>
      if dst.typeName = cacheDst.typeName then
        { err := none, dst := cacheDst, state := c }
      else
        { err := some .typeMismatch, dst := dst, state := c }

/-- Fold Put over a list of (key, value) pairs, left to right. -/
def PutList (c : Client) (kvs : List (String × GoVal)) : Client :=
  kvs.foldl (fun t p => Put t p.1 p.2) c

-- Basic lemmas about the map model.

theorem mlookup_minsert {α : Type} (m : List (String × α)) (k k' : String) (v : α) :
    mlookup (minsert m k v) k' = if k = k' then some v else mlookup m k' := by
  induction m with
  | nil => simp [minsert, mlookup]
  | cons p rest ih =>
      obtain ⟨pk, pv⟩ := p
      by_cases hpk : pk = k
      · subst hpk
        by_cases hk' : pk = k'
        · simp [minsert, mlookup, hk']
        · simp [minsert, mlookup, hk']
      · simp only [minsert, if_neg hpk, mlookup]
        by_cases hpk' : pk = k'
        · subst hpk'
          have : ¬ k = pk := fun h => hpk h.symm
          simp [this, mlookup]
        · simp [hpk', ih]

theorem mlookup_merase {α : Type} (m : List (String × α)) (k k' : String) :
    mlookup (merase m k) k' = if k = k' then none else mlookup m k' := by
  induction m with
  | nil => simp [merase, mlookup]
  | cons p rest ih =>
      obtain ⟨pk, pv⟩ := p
      by_cases hpk : pk = k
      · subst hpk
        by_cases hkk' : pk = k'
        · subst hkk'
          simpa [merase, mlookup] using ih
        · have : ¬ pk = k' := hkk'
          simp only [merase, List.filter] at ih ⊢
          simp only [bne_self_eq_false] at *
          simpa [merase, mlookup, hkk'] using ih
      · have hb : (pk != k) = true := by simpa [bne] using hpk
        by_cases hkk' : pk = k'
        · subst hkk'
          have : ¬ k = pk := fun h => hpk h.symm
          simp only [merase] at ih ⊢
          simp [List.filter, hb, mlookup, this, ih]
        · simp only [merase] at ih ⊢
          simp [List.filter, hb, mlookup, hkk', ih]

theorem minsert_not_mem {α : Type} (m : List (String × α)) (k : String) (v : α)
    (h : ∀ p ∈ m, p.1 ≠ k) : minsert m k v = m ++ [(k, v)] := by
  induction m with
  | nil => simp [minsert]
  | cons p rest ih =>
      obtain ⟨pk, pv⟩ := p
      have hpk : pk ≠ k := h (pk, pv) (by simp)
      simp only [minsert, if_neg hpk, List.cons_append, List.cons.injEq, true_and]
      exact ih (fun q hq => h q (by simp [hq]))

theorem mlookup_not_mem {α : Type} (m : List (String × α)) (k : String)
    (h : ∀ p ∈ m, p.1 ≠ k) : mlookup m k = none := by
  induction m with
  | nil => rfl
  | cons p rest ih =>
      obtain ⟨pk, pv⟩ := p
      have hpk : pk ≠ k := h (pk, pv) (by simp)
      simp only [mlookup, if_neg hpk]
      exact ih (fun q hq => h q (by simp [hq]))

theorem mlookup_mem_nodup {α : Type} (m : List (String × α)) (k : String) (v : α)
    (hnd : (m.map Prod.fst).Nodup) (hmem : (k, v) ∈ m) : mlookup m k = some v := by
  induction m with
  | nil => cases hmem
  | cons p rest ih =>
      obtain ⟨pk, pv⟩ := p
      simp only [List.map_cons, List.nodup_cons] at hnd
      rcases List.mem_cons.mp hmem with h | h
      · cases h
        simp [mlookup]
      · have hpk : pk ≠ k := by
          intro hEq
          exact hnd.1 (by simpa [hEq] using List.mem_map_of_mem Prod.fst h)
        simp only [mlookup, if_neg hpk]
        exact ih hnd.2 h

/-- The cached/uncached scan loop of Client.GetMulti (src/client.go lines
209-234).  The Go `range` iterates over a snapshot of `keys` while mutating
`uncachedKeys` in place; the first argument is the remaining snapshot and
`idx` the running index.  Mirrors the source exactly, including the early
`break` when `idx` runs past the shrunken `uncachedKeys`, the removal of
index `idx` of `uncachedKeys` (an index into `keys`, not into the current
`uncachedKeys`), and the `len(uncachedKeys) > 1` guard.  Results-map values
are `Option GoVal` because the break branch stores the possibly-nil cache
lookup.  The write-only `cachedKeys` slice of the source is not tracked. -/
def gmScan (cache : List (String × GoVal)) :
    List String → Nat → List String → List (String × Option GoVal) →
    List String × List (String × Option GoVal)
  | [], _, uncachedKeys, resultsMap => (uncachedKeys, resultsMap)
  | k :: ks, idx, uncachedKeys, resultsMap =>
      let val := mlookup cache k
      if idx ≥ uncachedKeys.length then
        (uncachedKeys, minsert resultsMap k val)
      else if val.isSome then
        gmScan cache ks (idx + 1)
          (if uncachedKeys.length > 1 then uncachedKeys.eraseIdx idx else uncachedKeys)
          (minsert resultsMap k val)
      else
        gmScan cache ks (idx + 1) uncachedKeys resultsMap

/-- The batched datastore read `c.Parent.GetMulti` (src/client.go line 241):
returns the values for the requested keys positionally, or an error
(`datastore.MultiError`) if any requested key is absent — in which case the
caller discards the results. -/
def storeGetMulti (store : List (String × GoVal)) : List String → Option (List GoVal)
  | [] => some []
  | k :: ks =>
      match mlookup store k, storeGetMulti store ks with
      | some v, some vs => some (v :: vs)
      | _, _ => none

/-- The loop recording datastore results into the results map
(src/client.go lines 246-249), positional over `uncachedKeys`. -/
def fillStore : List (String × Option GoVal) → List String → List GoVal →
    List (String × Option GoVal)
  | resultsMap, [], _ => resultsMap
  | resultsMap, _, [] => resultsMap
  | resultsMap, k :: ks, v :: vs => fillStore (minsert resultsMap k (some v)) ks vs

/-- Reading `resultsMap[keyStr]` in Go (src/client.go line 256): a missing
key yields the nil interface, indistinguishable from a stored nil. -/
def rmGet (resultsMap : List (String × Option GoVal)) (k : String) : Option GoVal :=
  match mlookup resultsMap k with
  | some ov => ov
  | none => none

/-- The final copy loop of Client.GetMulti (src/client.go lines 252-261):
`dVal.Index(idx).Set(reflect.ValueOf(val))` walks the destinations
positionally; a nil `val` makes `reflect.Value.Set` panic with a zero
Value argument, leaving the remaining destinations untouched.  Returns
whether the loop completed and the destinations after it. -/
def setDstLoop : List (Option GoVal) → List (Option GoVal) → Bool × List (Option GoVal)
  | dst, [] => (true, dst)
  | dst, none :: _ => (false, dst)
  | [], some _ :: _ => (false, [])
  | _ :: ds, some gv :: vs =>
      let r := setDstLoop ds vs
      (r.1, some gv :: r.2)

/-- How a call to Client.GetMulti ends. -/
inductive GMStatus
  | ok
  | storeError
  | panicked
deriving DecidableEq, Repr

/-- Result of Client.GetMulti: outcome, destinations after the call, and the
keys sent to the datastore batch read (`[]` when no read was issued). -/
structure GMOut where
  status : GMStatus
  dst : List (Option GoVal)
  storeReq : List String
deriving DecidableEq, Repr

/-- Client.GetMulti (src/client.go lines 188-264) after its argument
validation (`dst` a non-PropertyList slice of the same length as `keys`,
assumed here).  `uncachedKeys` starts as a copy of `keys`; the scan loop
removes cache hits (with the source's index confusion); if any keys remain
a single batched datastore read is issued, its failure returned
immediately with the destinations untouched; finally the results map is
copied into the destinations in input order.  The cache is never written. -/
def GetMulti (c : Client) (keys : List String) (dst0 : List (Option GoVal)) : GMOut :=
  let scan := gmScan c.Cache keys 0 keys []
  if scan.1.length > 0 then
    match storeGetMulti c.store scan.1 with
    | none => { status := .storeError, dst := dst0, storeReq := scan.1 }
    | some vals =>
        let rm := fillStore scan.2 scan.1 vals
        let fin := setDstLoop dst0 (keys.map (rmGet rm))
        { status := if fin.1 then .ok else .panicked, dst := fin.2, storeReq := scan.1 }
  else
    let fin := setDstLoop dst0 (keys.map (rmGet scan.2))
    { status := if fin.1 then .ok else .panicked, dst := fin.2, storeReq := [] }

/-- A datastore key: its canonical string form and whether it is complete
(has an assigned identifier). -/
structure GoKey where
  str : String
  complete : Bool
deriving DecidableEq, Repr

/-- The cache-keys removal loop of Client.Delete (src/client.go lines
281-291), modelled for a `cacheKeys` slice without duplicates (the intended
invariant), where at most one index matches: that occurrence is removed
when the slice holds more than one element, and the slice is replaced by a
fresh empty one otherwise. -/
def delCacheKeys (keys : List String) (keyStr : String) : List String :=
  if keyStr ∈ keys then
    if keys.length > 1 then keys.eraseIdx (keys.indexOf keyStr) else []
  else keys

/-- Result of Client.Delete: the error (if any), the client state after the
call, and whether the datastore Delete was invoked. -/
structure DelOut where
  err : Option GoErr
  state : Client
  storeCalled : Bool
deriving DecidableEq, Repr

/-- Client.Delete (src/client.go lines 267-301): if the canonical key string
is cached, remove it from the cache map and from `cacheKeys`; then always
call `c.Parent.Delete`, which fails with an invalid-key error when the key
is incomplete.  No key validation happens before the datastore call. -/
def Delete (c : Client) (key : GoKey) : DelOut :=
  let keyStr := key.str
  let c1 :=
    if (mlookup c.Cache keyStr).isSome then
      { c with Cache := merase c.Cache keyStr,
               cacheKeys := delCacheKeys c.cacheKeys keyStr }
    else c
  if key.complete then
    { err := none, state := { c1 with store := merase c1.store keyStr },
      storeCalled := true }
  else
    { err := some .invalidKey, state := c1, storeCalled := true }

/-- Numeric value of a decimal digit character. -/
def digitVal (c : Char) : Nat := c.toNat - 48

/-- The accumulation loop of strconv.ParseUint for base 10: fails on any
non-digit character.  (The source's per-step range check only changes which
error is reported; the final range check below decides acceptance.) -/
def parseDigits : List Char → Nat → Option Nat
  | [], acc => some acc
  | c :: cs, acc =>
      if c.isDigit then parseDigits cs (acc * 10 + digitVal c) else none

/-- Sign-stripped core of strconv.ParseInt(s, 10, 32): an empty digit string
is a syntax error; the accepted range is -2^31 .. 2^31 - 1. -/
def parseIntCore (digits : List Char) (neg : Bool) : Option Int :=
  match digits with
  | [] => none
  | _ :: _ =>
      match parseDigits digits 0 with
      | none => none
      | some un =>
          if neg then (if un > 2 ^ 31 then none else some (-(un : Int)))
          else (if un ≥ 2 ^ 31 then none else some (un : Int))

/-- strconv.ParseInt(s, 10, 32) as called by NewClient (src/client.go line
62), collapsing syntax and range errors into `none`. -/
def parseInt32 (s : String) : Option Int :=
  match s.toList with
  | [] => none
  | c :: rest =>
      if c = '-' then parseIntCore rest true
      else if c = '+' then parseIntCore rest false
      else parseIntCore (c :: rest) false

/-- How NewClient ends, as far as the max cache size is concerned. -/
inductive NewClientRes
  | client (maxCacheSize : Int)
  | err
  | panicked
deriving DecidableEq, Repr

/-- The max-cache-size setup of NewClient (src/client.go lines 58-78):
`env` is the value of GODSCACHE_MAX_CACHE_SIZE (empty when unset); a parse
failure is returned as an error; otherwise the client is built — but
`make([]string, 0, maxCacheSize)` panics at run time when the parsed value
is negative, so no client is ever returned for a negative size. -/
def newClientMaxCacheSize (env : String) : NewClientRes :=
  if env = "" then .client 1000
  else
    match parseInt32 env with
    | none => .err
    | some n => if n < 0 then .panicked else .client n

/-- Mathematical value of a decimal digit string. -/
def decimalVal (ds : List Char) : Nat :=
  ds.foldl (fun a c => a * 10 + digitVal c) 0

/-- Declarative reading of "s is the base-10 representation of the 32-bit
integer n": an optional sign followed by at least one digit, with the value
in the signed 32-bit range. -/
def isInt32Repr (s : String) (n : Int) : Prop :=
  ∃ ds : List Char, ds ≠ [] ∧ (∀ c ∈ ds, c.isDigit) ∧
    (((s.toList = ds ∨ s.toList = '+' :: ds) ∧ n = (decimalVal ds : Int)) ∨
      (s.toList = '-' :: ds ∧ n = -(decimalVal ds : Int))) ∧
    -(2 ^ 31) ≤ n ∧ n < 2 ^ 31

theorem merase_not_mem {α : Type} (m : List (String × α)) (k : String)
    (h : ∀ p ∈ m, p.1 ≠ k) : merase m k = m := by
  induction m with
  | nil => rfl
  | cons p rest ih =>
      obtain ⟨pk, pv⟩ := p
      have hpk : pk ≠ k := h (pk, pv) (by simp)
      have hb : (pk != k) = true := by simpa [bne] using hpk
      simp only [merase, List.filter, hb]
      exact congrArg _ (ih (fun q hq => h q (by simp [hq])))

theorem PutList_append (c : Client) (l1 l2 : List (String × GoVal)) :
    PutList c (l1 ++ l2) = PutList (PutList c l1) l2 :=
  List.foldl_append _ _ _ _

/-- A Put of a key not yet cached, when the cache is not yet full, appends
the entry to the cache and the key to `cacheKeys`, with no eviction. -/
theorem Put_fresh_no_evict (c : Client) (k : String) (v : GoVal)
    (halign : c.cacheKeys = c.Cache.map Prod.fst)
    (hroom : c.Cache.length + 1 ≤ c.MaxCacheSize)
    (hfresh : ∀ p ∈ c.Cache, p.1 ≠ k) :
    Put c k v = { store := minsert c.store k v, Cache := c.Cache ++ [(k, v)],
                  MaxCacheSize := c.MaxCacheSize,
                  cacheKeys := c.Cache.map Prod.fst ++ [k] } := by
  have hins : minsert c.Cache k v = c.Cache ++ [(k, v)] := minsert_not_mem _ _ _ hfresh
  have hlen : (c.cacheKeys ++ [k]).length = c.Cache.length + 1 := by
    simp [halign]
  have hcond : ¬ (c.cacheKeys ++ [k]).length > c.MaxCacheSize := by
    rw [hlen]; omega
  simp only [Put]
  rw [if_neg hcond, hins, halign]

/-- A Put of a key not yet cached, when the cache is exactly full, appends
the entry and then evicts the oldest one: the result drops the head of both
the cache and `cacheKeys`. -/
theorem Put_fresh_evict (c : Client) (k : String) (v : GoVal)
    (halign : c.cacheKeys = c.Cache.map Prod.fst)
    (hfull : c.Cache.length = c.MaxCacheSize)
    (hnd : (c.Cache.map Prod.fst ++ [k]).Nodup) :
    Put c k v = { store := minsert c.store k v,
                  Cache := (c.Cache ++ [(k, v)]).tail,
                  MaxCacheSize := c.MaxCacheSize,
                  cacheKeys := (c.Cache.map Prod.fst ++ [k]).tail } := by
  have hfresh : ∀ p ∈ c.Cache, p.1 ≠ k := by
    intro p hp hEq
    rcases List.nodup_append.mp hnd with ⟨-, -, hdisj⟩
    exact hdisj (List.mem_map_of_mem Prod.fst hp) (by simp [hEq])
  have hins : minsert c.Cache k v = c.Cache ++ [(k, v)] := minsert_not_mem _ _ _ hfresh
  have hlen : (c.cacheKeys ++ [k]).length = c.Cache.length + 1 := by
    simp [halign]
  have hcond : (c.cacheKeys ++ [k]).length > c.MaxCacheSize := by
    rw [hlen]; omega
  rcases hcache : c.Cache with _ | ⟨⟨k0, v0⟩, restc⟩
  · -- empty cache, capacity 0: the newly inserted entry is evicted at once
    have halign' : c.cacheKeys = [] := by rw [halign, hcache]; rfl
    simp only [Put]
    rw [if_pos hcond, hins, hcache, halign']
    simp [merase]
  · -- the head entry k0 is evicted
    have hk0 : (c.cacheKeys ++ [k]).headD "" = k0 := by
      simp [halign, hcache]
    have hrest : ∀ p ∈ restc ++ [(k, v)], p.1 ≠ k0 := by
      intro p hp
      rcases List.mem_append.mp hp with hp | hp
      · have : (c.Cache.map Prod.fst).Nodup := (List.nodup_append.mp hnd).1
        rw [hcache] at this
        simp only [List.map_cons, List.nodup_cons] at this
        intro hEq
        exact this.1 (by simpa [hEq] using List.mem_map_of_mem Prod.fst hp)
      · have hpk : p = (k, v) := by simpa using hp
        subst hpk
        intro hEq
        exact hfresh (k0, v0) (by simp [hcache]) hEq.symm
    have hmer : merase (c.Cache ++ [(k, v)]) k0 = restc ++ [(k, v)] := by
      rw [hcache]
      show merase ((k0, v0) :: (restc ++ [(k, v)])) k0 = restc ++ [(k, v)]
      simp only [merase, List.filter, bne_self_eq_false]
      exact merase_not_mem _ _ hrest
    simp only [Put]
    rw [if_pos hcond, hins, hk0, hmer, halign, hcache]
    simp

/-- Putting a batch of fresh, pairwise-distinct keys that fits in the
remaining capacity appends them in order with no eviction. -/
theorem PutList_no_evict (kvs : List (String × GoVal)) :
    ∀ (c : Client), c.cacheKeys = c.Cache.map Prod.fst →
    c.Cache.length + kvs.length ≤ c.MaxCacheSize →
    ((c.Cache ++ kvs).map Prod.fst).Nodup →
    (PutList c kvs).Cache = c.Cache ++ kvs ∧
    (PutList c kvs).cacheKeys = (c.Cache ++ kvs).map Prod.fst ∧
    (PutList c kvs).MaxCacheSize = c.MaxCacheSize := by
  induction kvs with
  | nil =>
      intro c h1 h2 h3
      simp [PutList, h1]
  | cons p rest ih =>
      intro c h1 h2 h3
      obtain ⟨k, v⟩ := p
      have hfresh : ∀ q ∈ c.Cache, q.1 ≠ k := by
        intro q hq hEq
        rw [List.map_append] at h3
        rcases List.nodup_append.mp h3 with ⟨-, -, hdisj⟩
        exact hdisj (List.mem_map_of_mem Prod.fst hq) (by simp [hEq])
      have hroom : c.Cache.length + 1 ≤ c.MaxCacheSize := by
        simp only [List.length_cons] at h2; omega
      have hstep := Put_fresh_no_evict c k v h1 hroom hfresh
      have hunf : PutList c ((k, v) :: rest) = PutList (Put c k v) rest := rfl
      rw [hunf, hstep]
      have hassoc : c.Cache ++ (k, v) :: rest = (c.Cache ++ [(k, v)]) ++ rest := by
        simp
      have ih' := ih { store := minsert c.store k v, Cache := c.Cache ++ [(k, v)],
                       MaxCacheSize := c.MaxCacheSize,
                       cacheKeys := c.Cache.map Prod.fst ++ [k] }
        (by simp)
        (by simp only [List.length_append, List.length_cons, List.length_nil] at h2 ⊢; omega)
        (by rw [← hassoc]; exact h3)
      rw [hassoc]
      exact ih'

/-- The cache contents after N+1 distinct Puts into an empty client of
capacity N: the first entry has been evicted and the rest remain in order. -/
theorem PutList_overflow_cache (N : Nat) (k0 : String) (v0 : GoVal)
    (rest : List (String × GoVal)) (store : List (String × GoVal))
    (hlen : rest.length = N)
    (hnd : (k0 :: rest.map Prod.fst).Nodup) :
    (PutList (initClient store N) ((k0, v0) :: rest)).Cache = rest := by
  rcases List.eq_nil_or_concat rest with rfl | ⟨mid, q, rfl⟩
  · -- capacity 0: the single Put evicts its own entry
    have h0 : N = 0 := by simpa using hlen.symm
    subst h0
    have := Put_fresh_evict (initClient store 0) k0 v0 (by simp [initClient])
      (by simp [initClient]) (by simp [initClient])
    simp only [PutList, List.foldl_cons, List.foldl_nil]
    rw [this]
    simp [initClient]
  · simp only [List.concat_eq_append] at hlen hnd ⊢
    have hsplit : (k0, v0) :: (mid ++ [q]) = ((k0, v0) :: mid) ++ [q] := rfl
    rw [hsplit, PutList_append]
    have hndmid : (((initClient store N).Cache ++ ((k0, v0) :: mid)).map Prod.fst).Nodup := by
      simp only [initClient, List.nil_append]
      have : (k0 :: (mid ++ [q]).map Prod.fst).Nodup := hnd
      simp only [List.map_append, List.map_cons] at this ⊢
      rcases List.nodup_cons.mp this with ⟨hk0, hmq⟩
      exact List.nodup_cons.mpr
        ⟨fun hmem => hk0 (List.mem_append.mpr (Or.inl hmem)),
         (List.nodup_append.mp hmq).1⟩
    have hfit : (initClient store N).Cache.length + ((k0, v0) :: mid).length
        ≤ (initClient store N).MaxCacheSize := by
      simp only [initClient, List.length_nil, List.length_cons]
      have : (mid ++ [q]).length = N := hlen
      simp only [List.length_append, List.length_cons] at this
      omega
    obtain ⟨hC, hK, hM⟩ := PutList_no_evict ((k0, v0) :: mid) (initClient store N)
      (by simp [initClient]) hfit hndmid
    have hfull : (PutList (initClient store N) ((k0, v0) :: mid)).Cache.length
        = (PutList (initClient store N) ((k0, v0) :: mid)).MaxCacheSize := by
      rw [hC, hM]
      simp only [initClient, List.nil_append, List.length_cons]
      have : (mid ++ [q]).length = N := hlen
      simp only [List.length_append, List.length_cons, List.length_nil] at this
      omega
    have hndfin : ((PutList (initClient store N) ((k0, v0) :: mid)).Cache.map Prod.fst
        ++ [q.1]).Nodup := by
      rw [hC]
      simp only [initClient, List.nil_append, List.map_cons]
      have : (k0 :: (mid ++ [q]).map Prod.fst).Nodup := hnd
      simp only [List.map_append, List.map_cons, List.map_nil] at this
      simpa using this
    have hev := Put_fresh_evict (PutList (initClient store N) ((k0, v0) :: mid))
      q.1 q.2 (by rw [hK, hC]) hfull hndfin
    have hsingle : PutList (PutList (initClient store N) ((k0, v0) :: mid)) [q]
        = Put (PutList (initClient store N) ((k0, v0) :: mid)) q.1 q.2 := rfl
    rw [hsingle, hev, hC]
    simp [initClient]

/-- C2: with capacity N, performing N+1 Puts of distinct keys on a fresh
client leaves exactly N cache entries; the first-inserted key is gone and
every later entry is still present with its value — FIFO eviction of the
oldest entry (src/client.go lines 105-126). -/
theorem c2_fifo_eviction (N : Nat) (k0 : String) (v0 : GoVal)
    (rest : List (String × GoVal)) (store : List (String × GoVal))
    (hlen : rest.length = N)
    (hnd : (k0 :: rest.map Prod.fst).Nodup) :
    (PutList (initClient store N) ((k0, v0) :: rest)).Cache.length = N ∧
    mlookup (PutList (initClient store N) ((k0, v0) :: rest)).Cache k0 = none ∧
    ∀ p ∈ rest,
      mlookup (PutList (initClient store N) ((k0, v0) :: rest)).Cache p.1 = some p.2 := by
  have hC := PutList_overflow_cache N k0 v0 rest store hlen hnd
  rcases List.nodup_cons.mp hnd with ⟨hk0, hndrest⟩
  refine ⟨by rw [hC, hlen], ?_, ?_⟩
  · rw [hC]
    exact mlookup_not_mem rest k0
      (fun p hp hEq => hk0 (by simpa [hEq] using List.mem_map_of_mem Prod.fst hp))
  · intro p hp
    rw [hC]
    exact mlookup_mem_nodup rest p.1 p.2 hndrest (by simpa using hp)

/-- Witness for C2 with capacity 1 and two distinct Puts. -/
theorem c2_fifo_eviction_witness :
    (PutList (initClient [] 1) [("a", ⟨"*godscache.TestDbData", 1⟩),
        ("b", ⟨"*godscache.TestDbData", 2⟩)]).Cache.length = 1 ∧
    mlookup (PutList (initClient [] 1) [("a", ⟨"*godscache.TestDbData", 1⟩),
        ("b", ⟨"*godscache.TestDbData", 2⟩)]).Cache "a" = none ∧
    ∀ p ∈ [(("b" : String), (⟨"*godscache.TestDbData", 2⟩ : GoVal))],
      mlookup (PutList (initClient [] 1) [("a", ⟨"*godscache.TestDbData", 1⟩),
        ("b", ⟨"*godscache.TestDbData", 2⟩)]).Cache p.1 = some p.2 :=
  c2_fifo_eviction 1 "a" ⟨"*godscache.TestDbData", 1⟩
    [("b", ⟨"*godscache.TestDbData", 2⟩)] [] (by decide) (by decide)

/-- Sample cached value, as in the tests' `&TestDbData{...}`. -/
def vA : GoVal := ⟨"*godscache.TestDbData", 1⟩

/-- A second sample value of the same type. -/
def vB : GoVal := ⟨"*godscache.TestDbData", 2⟩

/-- A sample value of a different struct type. -/
def vDiff : GoVal := ⟨"*godscache.TestDbDataDifferent", 0⟩

/-- C1: two Puts of the same key.  Put appends the key string to `cacheKeys`
unconditionally (src/client.go line 107), so overwriting an already-cached
key leaves the key twice in `cacheKeys` while the cache map holds one entry:
the claimed bijection between `cacheKeys` and the cache map fails, against
the source's own comment that the lengths should agree. -/
theorem c1_put_overwrite_breaks_bijection :
    (Put (Put (initClient [] 2) "k" vA) "k" vB).cacheKeys = ["k", "k"] ∧
    (Put (Put (initClient [] 2) "k" vA) "k" vB).Cache = [("k", vB)] ∧
    (Put (Put (initClient [] 2) "k" vA) "k" vB).cacheKeys.length = 2 ∧
    (Put (Put (initClient [] 2) "k" vA) "k" vB).Cache.length = 1 := by decide

/-- Client state exhibiting a full cache of capacity 1, with key "b" only in
the datastore. -/
def c3client : Client := ⟨[("b", vB)], [("a", vA)], 1, ["a"]⟩

/-- C3, counterexample to the claim as stated: a Get cache miss back-fills
the cache with no eviction check (src/client.go lines 147-156), so after a
miss on a full cache of capacity 1 the cache holds 2 entries, exceeding
MaxCacheSize. -/
theorem c3_get_miss_exceeds_max_cache_size :
    (Get c3client "b" ⟨"*godscache.TestDbData", 0⟩).err = none ∧
    (Get c3client "b" ⟨"*godscache.TestDbData", 0⟩).state.Cache.length = 2 ∧
    ¬ (Get c3client "b" ⟨"*godscache.TestDbData", 0⟩).state.Cache.length
        ≤ c3client.MaxCacheSize := by decide

/-- C3, amended: on a cache miss whose datastore read succeeds, Get inserts
the result into the cache and appends the key to `cacheKeys` without any
eviction check, so the entry count may exceed MaxCacheSize. -/
theorem c3_get_miss_backfills_without_eviction (c : Client) (k : String)
    (v dst : GoVal) (hc : mlookup c.Cache k = none)
    (hs : mlookup c.store k = some v) :
    (Get c k dst).err = none ∧
    (Get c k dst).state.Cache = minsert c.Cache k v ∧
    (Get c k dst).state.cacheKeys = c.cacheKeys ++ [k] := by
  simp [Get, hc, hs]

/-- Witness for the amended C3 at a concrete full cache. -/
theorem c3_get_miss_backfill_witness :
    (Get c3client "b" vA).err = none ∧
    (Get c3client "b" vA).state.Cache = minsert c3client.Cache "b" vB ∧
    (Get c3client "b" vA).state.cacheKeys = c3client.cacheKeys ++ ["b"] :=
  c3_get_miss_backfills_without_eviction c3client "b" vB vA (by decide) (by decide)

/-- C4: a successful Put(k, v) followed by Get(k, &dst) with dst of the same
type succeeds and leaves dst equal to v, whether the Get is served from the
cache or (when Put immediately evicted the key) read back from the
datastore. -/
theorem c4_put_get_roundtrip (c : Client) (k : String) (v dst : GoVal)
    (h : dst.typeName = v.typeName) :
    (Get (Put c k v) k dst).err = none ∧ (Get (Put c k v) k dst).dst = v := by
  unfold Put
  by_cases hev : (c.cacheKeys ++ [k]).length > c.MaxCacheSize
  · simp only [if_pos hev]
    by_cases hk : (c.cacheKeys ++ [k]).headD "" = k
    · have hcl : mlookup (merase (minsert c.Cache k v) ((c.cacheKeys ++ [k]).headD "")) k
          = none := by
        rw [hk, mlookup_merase]; simp
      have hsl : mlookup (minsert c.store k v) k = some v := by
        rw [mlookup_minsert]; simp
      simp only [Get, hcl, hsl]
      simp
    · have hcl : mlookup (merase (minsert c.Cache k v) ((c.cacheKeys ++ [k]).headD "")) k
          = some v := by
        rw [mlookup_merase, if_neg hk, mlookup_minsert]; simp
      simp only [Get, hcl]
      simp [h]
  · simp only [if_neg hev]
    have hcl : mlookup (minsert c.Cache k v) k = some v := by
      rw [mlookup_minsert]; simp
    simp [Get, hcl, h]

/-- Witness for C4 on a capacity-0 client, where the Put immediately evicts
the key and the Get reads the value back from the datastore. -/
theorem c4_put_get_roundtrip_witness :
    (Get (Put (initClient [] 0) "k" vA) "k" ⟨"*godscache.TestDbData", 9⟩).err = none ∧
    (Get (Put (initClient [] 0) "k" vA) "k" ⟨"*godscache.TestDbData", 9⟩).dst = vA :=
  c4_put_get_roundtrip (initClient [] 0) "k" vA ⟨"*godscache.TestDbData", 9⟩ (by decide)

/-- C5: on a cache hit whose cached value has a different runtime type than
the destination, Get fails with the type-mismatch error before performing
any copy: the destination and the whole client state (cache entry included)
are unchanged (src/client.go lines 157-181). -/
theorem c5_type_mismatch_no_copy (c : Client) (k : String) (a dst : GoVal)
    (hc : mlookup c.Cache k = some a) (hne : dst.typeName ≠ a.typeName) :
    (Get c k dst).err = some .typeMismatch ∧ (Get c k dst).dst = dst ∧
    (Get c k dst).state = c := by
  simp [Get, hc, hne]

/-- Witness for C5: a cached `*TestDbData` read into a
`*TestDbDataDifferent` destination. -/
theorem c5_type_mismatch_witness :
    (Get ⟨[("a", vA)], [("a", vA)], 1000, ["a"]⟩ "a" vDiff).err
        = some .typeMismatch ∧
    (Get ⟨[("a", vA)], [("a", vA)], 1000, ["a"]⟩ "a" vDiff).dst = vDiff ∧
    (Get ⟨[("a", vA)], [("a", vA)], 1000, ["a"]⟩ "a" vDiff).state
        = ⟨[("a", vA)], [("a", vA)], 1000, ["a"]⟩ :=
  c5_type_mismatch_no_copy ⟨[("a", vA)], [("a", vA)], 1000, ["a"]⟩ "a" vA vDiff
    (by decide) (by decide)

/-- Client whose only key "a" is cached (and stored). -/
def c6client : Client := ⟨[("a", vA)], [("a", vA)], 1000, ["a"]⟩

/-- Client with "a" and "b" cached and "c" only in the datastore. -/
def c6client2 : Client :=
  ⟨[("a", vA), ("b", vB), ("c", ⟨"*godscache.TestDbData", 3⟩)],
   [("a", vA), ("b", vB)], 1000, ["a", "b"]⟩

/-- C6: the batched datastore read is not the list of cache misses.  First
group: on a single already-cached key the scan loop never removes it from
`uncachedKeys` (the `len(uncachedKeys) > 1` guard, src/client.go line 224),
so a store read is issued for an all-cached input.  Second group: with
cached "a","b" and uncached "c", the removal at the index into `keys`
(line 225) deletes the wrong element, so the store read is for ["b"]:
it includes the cached key "b" and omits the actual miss "c". -/
theorem c6_store_read_issued_for_cached_key :
    (mlookup c6client.Cache "a" = some vA ∧
      (GetMulti c6client ["a"] [none]).storeReq = ["a"]) ∧
    (mlookup c6client2.Cache "b" = some vB ∧
      mlookup c6client2.Cache "c" = none ∧
      (GetMulti c6client2 ["a", "b", "c"] [none, none, none]).storeReq = ["b"]) := by
  decide

/-- Client with "a" cached and "b" absent from both cache and datastore. -/
def c8client : Client := ⟨[("a", vA)], [("a", vA)], 1000, ["a"]⟩

/-- C8, counterexample to the claim as stated: with "a" resolvable from the
cache and "b" absent everywhere, GetMulti returns the datastore batch error
without populating any destination — position 0 stays nil even though its
value was resolved from the cache (src/client.go lines 242-244 return
before the copy loop). -/
theorem c8_resolved_entries_discarded_on_partial_failure :
    mlookup c8client.Cache "a" = some vA ∧
    (GetMulti c8client ["a", "b"] [none, none]).status = .storeError ∧
    (GetMulti c8client ["a", "b"] [none, none]).dst = [none, none] := by decide

/-- A key that is not in the cache stays nil in the results map throughout
the scan loop: every insertion for it stores the nil cache lookup. -/
theorem gmScan_absent (cache : List (String × GoVal)) (k : String)
    (hc : mlookup cache k = none) :
    ∀ (ks : List String) (idx : Nat) (unc : List String)
      (rm : List (String × Option GoVal)), rmGet rm k = none →
      rmGet (gmScan cache ks idx unc rm).2 k = none := by
  intro ks
  induction ks with
  | nil => intro idx unc rm h; exact h
  | cons k' ks ih =>
      intro idx unc rm h
      have hins : rmGet (minsert rm k' (mlookup cache k')) k = none := by
        unfold rmGet at h ⊢
        rw [mlookup_minsert]
        by_cases hkk : k' = k
        · rw [if_pos hkk, hkk, hc]
        · rw [if_neg hkk]; exact h
      simp only [gmScan]
      by_cases hidx : idx ≥ unc.length
      · rw [if_pos hidx]; exact hins
      · rw [if_neg hidx]
        by_cases hval : (mlookup cache k').isSome
        · rw [if_pos hval]; exact ih _ _ _ hins
        · rw [if_neg hval]; exact ih _ _ _ h

/-- A key that is not in the datastore stays nil in the results map through
the store-fill loop: a successful batch read only inserts keys the store
holds. -/
theorem fillStore_absent (store : List (String × GoVal)) (k : String)
    (hs : mlookup store k = none) :
    ∀ (ks : List String) (vs : List GoVal) (rm : List (String × Option GoVal)),
      storeGetMulti store ks = some vs → rmGet rm k = none →
      rmGet (fillStore rm ks vs) k = none := by
  intro ks
  induction ks with
  | nil => intro vs rm _ h; cases vs <;> exact h
  | cons k' ks ih =>
      intro vs rm hsm h
      simp only [storeGetMulti] at hsm
      rcases hk' : mlookup store k' with _ | v
      · rw [hk'] at hsm; cases hsm
      · rw [hk'] at hsm
        rcases hrest : storeGetMulti store ks with _ | vs'
        · rw [hrest] at hsm; cases hsm
        · rw [hrest] at hsm
          cases hsm
          simp only [fillStore]
          apply ih vs' _ hrest
          have hkk : k' ≠ k := by
            intro hEq; rw [hEq, hs] at hk'; cases hk'
          unfold rmGet at h ⊢
          rw [mlookup_minsert, if_neg hkk]
          exact h

/-- The destination copy loop never completes when its input contains a nil
value: it panics there (or earlier, when the destinations run out). -/
theorem setDstLoop_mem_none : ∀ (vals dst : List (Option GoVal)),
    none ∈ vals → (setDstLoop dst vals).1 = false := by
  intro vals
  induction vals with
  | nil => intro dst h; simp at h
  | cons v vs ih =>
      intro dst h
      rcases v with _ | gv
      · rcases dst with _ | ⟨d, ds⟩ <;> rfl
      · rcases List.mem_cons.mp h with h0 | hmem
        · cases h0
        · rcases dst with _ | ⟨d, ds⟩
          · rfl
          · simp only [setDstLoop]
            simpa using ih ds hmem

/-- C8, amended: when a requested key is absent from both cache and store,
GetMulti never populates the resolved entries and then returns the
aggregate error.  Either the batched datastore read still contains the
absent key, fails, and the adapter's error is returned immediately with
the destinations exactly as passed in (nothing populated) — or the scan
loop's index bug dropped the absent key from the batch read, the read
succeeds, and the copy loop panics at the absent key's nil results-map
entry instead of returning an error. -/
theorem c8_absent_key_error_or_panic (c : Client) (keys : List String)
    (dst0 : List (Option GoVal)) (k : String) (hk : k ∈ keys)
    (hc : mlookup c.Cache k = none) (hs : mlookup c.store k = none) :
    ((GetMulti c keys dst0).status = .storeError ∧
      (GetMulti c keys dst0).dst = dst0) ∨
    (GetMulti c keys dst0).status = .panicked := by
  by_cases hpos : (gmScan c.Cache keys 0 keys []).1.length > 0
  · rcases hm : storeGetMulti c.store (gmScan c.Cache keys 0 keys []).1 with _ | vals
    · left
      constructor <;> simp [GetMulti, hpos, hm]
    · right
      have hrm : rmGet (fillStore (gmScan c.Cache keys 0 keys []).2
          (gmScan c.Cache keys 0 keys []).1 vals) k = none :=
        fillStore_absent c.store k hs _ vals _ hm
          (gmScan_absent c.Cache k hc keys 0 keys [] rfl)
      have hmem : none ∈ keys.map (rmGet (fillStore (gmScan c.Cache keys 0 keys []).2
          (gmScan c.Cache keys 0 keys []).1 vals)) := by
        rw [← hrm]
        exact List.mem_map_of_mem _ hk
      have hfin := setDstLoop_mem_none _ dst0 hmem
      simp [GetMulti, hpos, hm, hfin]
  · right
    have hrm : rmGet (gmScan c.Cache keys 0 keys []).2 k = none :=
      gmScan_absent c.Cache k hc keys 0 keys [] rfl
    have hmem : none ∈ keys.map (rmGet (gmScan c.Cache keys 0 keys []).2) := by
      rw [← hrm]
      exact List.mem_map_of_mem _ hk
    have hfin := setDstLoop_mem_none _ dst0 hmem
    simp [GetMulti, hpos, hfin]

/-- Client with "a" and "b" cached (and stored); "c" absent from both. -/
def c8client2 : Client :=
  ⟨[("a", vA), ("b", vB)], [("a", vA), ("b", vB)], 1000, ["a", "b"]⟩

/-- Witness for the amended C8: the store-error case ("b" absent, still in
the batch read) and the panic case ("c" absent but dropped from the batch
read by the index bug). -/
theorem c8_absent_key_error_or_panic_witness :
    (((GetMulti c8client ["a", "b"] [none, none]).status = .storeError ∧
        (GetMulti c8client ["a", "b"] [none, none]).dst = [none, none]) ∨
      (GetMulti c8client ["a", "b"] [none, none]).status = .panicked) ∧
    (((GetMulti c8client2 ["a", "b", "c"] [none, none, none]).status = .storeError ∧
        (GetMulti c8client2 ["a", "b", "c"] [none, none, none]).dst
          = [none, none, none]) ∨
      (GetMulti c8client2 ["a", "b", "c"] [none, none, none]).status = .panicked) :=
  ⟨c8_absent_key_error_or_panic c8client ["a", "b"] [none, none] "b"
      (by decide) (by decide) (by decide),
   c8_absent_key_error_or_panic c8client2 ["a", "b", "c"] [none, none, none] "c"
      (by decide) (by decide) (by decide)⟩

/-- Invariant of GetMulti's results map: every non-nil value recorded under a
key is that key's cached value or that key's datastore value. -/
def RInv (cache store : List (String × GoVal))
    (rm : List (String × Option GoVal)) : Prop :=
  ∀ k gv, mlookup rm k = some (some gv) →
    mlookup cache k = some gv ∨ mlookup store k = some gv

theorem RInv_nil (cache store : List (String × GoVal)) : RInv cache store [] := by
  intro k gv h
  simp [mlookup] at h

theorem RInv_insert (cache store : List (String × GoVal))
    (rm : List (String × Option GoVal)) (k : String) (ov : Option GoVal)
    (hov : ∀ gv, ov = some gv →
      mlookup cache k = some gv ∨ mlookup store k = some gv)
    (h : RInv cache store rm) : RInv cache store (minsert rm k ov) := by
  intro k' gv hl
  rw [mlookup_minsert] at hl
  by_cases hk : k = k'
  · subst hk
    rw [if_pos rfl] at hl
    exact hov gv (Option.some.inj hl)
  · rw [if_neg hk] at hl
    exact h k' gv hl

theorem gmScan_RInv (cache store : List (String × GoVal)) :
    ∀ (ks : List String) (idx : Nat) (unc : List String)
      (rm : List (String × Option GoVal)), RInv cache store rm →
      RInv cache store (gmScan cache ks idx unc rm).2 := by
  intro ks
  induction ks with
  | nil => intro idx unc rm h; exact h
  | cons k ks ih =>
      intro idx unc rm h
      have hcachev : ∀ gv, mlookup cache k = some gv →
          mlookup cache k = some gv ∨ mlookup store k = some gv := fun gv hg => Or.inl hg
      simp only [gmScan]
      by_cases hidx : idx ≥ unc.length
      · rw [if_pos hidx]
        exact RInv_insert cache store rm k (mlookup cache k) hcachev h
      · rw [if_neg hidx]
        by_cases hval : (mlookup cache k).isSome
        · rw [if_pos hval]
          exact ih (idx + 1) _ _ (RInv_insert cache store rm k (mlookup cache k) hcachev h)
        · rw [if_neg hval]
          exact ih (idx + 1) unc rm h

theorem fillStore_RInv (cache store : List (String × GoVal)) :
    ∀ (ks : List String) (vs : List GoVal) (rm : List (String × Option GoVal)),
      storeGetMulti store ks = some vs → RInv cache store rm →
      RInv cache store (fillStore rm ks vs) := by
  intro ks
  induction ks with
  | nil => intro vs rm _ h; cases vs <;> exact h
  | cons k ks ih =>
      intro vs rm hsm h
      simp only [storeGetMulti] at hsm
      rcases hk : mlookup store k with _ | v
      · rw [hk] at hsm; cases hsm
      · rw [hk] at hsm
        rcases hrest : storeGetMulti store ks with _ | vs'
        · rw [hrest] at hsm; cases hsm
        · rw [hrest] at hsm
          cases hsm
          simp only [fillStore]
          exact ih vs' _ hrest
            (RInv_insert cache store rm k (some v)
              (fun gv hg => Or.inr (by rw [hk, Option.some.inj hg])) h)

theorem rmGet_RInv (cache store : List (String × GoVal))
    (rm : List (String × Option GoVal)) (k : String) (gv : GoVal)
    (hinv : RInv cache store rm) (h : rmGet rm k = some gv) :
    mlookup cache k = some gv ∨ mlookup store k = some gv := by
  unfold rmGet at h
  rcases hl : mlookup rm k with _ | ov
  · rw [hl] at h; simp at h
  · rw [hl] at h
    simp at h
    exact hinv k gv (by rw [hl, h])

theorem setDstLoop_ok : ∀ (vals dst dst' : List (Option GoVal)),
    setDstLoop dst vals = (true, dst') →
    ∀ (i : Nat) (v : Option GoVal), vals.get? i = some v →
      ∃ gv, v = some gv ∧ dst'.get? i = some (some gv) := by
  intro vals
  induction vals with
  | nil =>
      intro dst dst' _ i v hv
      simp [List.get?] at hv
  | cons v0 vs ih =>
      intro dst dst' hrun i v hv
      rcases v0 with _ | gv0
      · rcases dst with _ | ⟨d, ds⟩ <;> cases hrun
      · rcases dst with _ | ⟨d, ds⟩
        · cases hrun
        · simp only [setDstLoop] at hrun
          have h1 : (setDstLoop ds vs).1 = true := by
            have := congrArg Prod.fst hrun; simpa using this
          have h2 : dst' = some gv0 :: (setDstLoop ds vs).2 := by
            have := congrArg Prod.snd hrun; simpa using this.symm
          rcases i with _ | i
          · refine ⟨gv0, by simpa using hv.symm, ?_⟩
            rw [h2]
            have hveq : v = some gv0 := by simpa using hv.symm
            simp
          · rw [h2]
            have hrun' : setDstLoop ds vs = (true, (setDstLoop ds vs).2) := by
              rw [← h1]
            exact ih ds _ hrun' i v (by simpa using hv)

/-- C7: whenever GetMulti returns success, the destinations are filled
positionally — each destination slot i holds a value resolved for keys[i],
taken from the cache or from the datastore batch read (src/client.go lines
252-261 copy the results map back in input order). -/
theorem c7_getmulti_positional (c : Client) (keys : List String)
    (dst0 : List (Option GoVal))
    (h : (GetMulti c keys dst0).status = .ok) :
    ∀ (i : Nat) (k : String), keys.get? i = some k →
      ∃ gv, (GetMulti c keys dst0).dst.get? i = some (some gv) ∧
        (mlookup c.Cache k = some gv ∨ mlookup c.store k = some gv) := by
  intro i k hk
  by_cases hpos : (gmScan c.Cache keys 0 keys []).1.length > 0
  · rcases hm : storeGetMulti c.store (gmScan c.Cache keys 0 keys []).1 with _ | vals
    · exfalso
      simp [GetMulti, hpos, hm] at h
    · have hinv : RInv c.Cache c.store
          (fillStore (gmScan c.Cache keys 0 keys []).2
            (gmScan c.Cache keys 0 keys []).1 vals) :=
        fillStore_RInv c.Cache c.store _ vals _ hm
          (gmScan_RInv c.Cache c.store keys 0 keys [] (RInv_nil _ _))
      simp only [GetMulti, if_pos hpos, hm] at h ⊢
      rcases hfin : (setDstLoop dst0 (keys.map (rmGet
          (fillStore (gmScan c.Cache keys 0 keys []).2
            (gmScan c.Cache keys 0 keys []).1 vals)))).1 with _ | _
      · rw [hfin] at h; simp at h
      · have hrun : setDstLoop dst0 (keys.map (rmGet
            (fillStore (gmScan c.Cache keys 0 keys []).2
              (gmScan c.Cache keys 0 keys []).1 vals)))
            = (true, (setDstLoop dst0 (keys.map (rmGet
              (fillStore (gmScan c.Cache keys 0 keys []).2
                (gmScan c.Cache keys 0 keys []).1 vals)))).2) := by
          rw [← hfin]
        have hvi : (keys.map (rmGet
            (fillStore (gmScan c.Cache keys 0 keys []).2
              (gmScan c.Cache keys 0 keys []).1 vals))).get? i
            = some (rmGet (fillStore (gmScan c.Cache keys 0 keys []).2
              (gmScan c.Cache keys 0 keys []).1 vals) k) := by
          rw [List.get?_map, hk]; rfl
        obtain ⟨gv, hgv, hdst⟩ := setDstLoop_ok _ _ _ hrun i _ hvi
        exact ⟨gv, hdst, rmGet_RInv _ _ _ k gv hinv hgv⟩
  · have hinv : RInv c.Cache c.store (gmScan c.Cache keys 0 keys []).2 :=
      gmScan_RInv c.Cache c.store keys 0 keys [] (RInv_nil _ _)
    simp only [GetMulti, if_neg hpos] at h ⊢
    rcases hfin : (setDstLoop dst0 (keys.map (rmGet
        (gmScan c.Cache keys 0 keys []).2))).1 with _ | _
    · rw [hfin] at h; simp at h
    · have hrun : setDstLoop dst0 (keys.map (rmGet
          (gmScan c.Cache keys 0 keys []).2))
          = (true, (setDstLoop dst0 (keys.map (rmGet
            (gmScan c.Cache keys 0 keys []).2))).2) := by
        rw [← hfin]
      have hvi : (keys.map (rmGet (gmScan c.Cache keys 0 keys []).2)).get? i
          = some (rmGet (gmScan c.Cache keys 0 keys []).2 k) := by
        rw [List.get?_map, hk]; rfl
      obtain ⟨gv, hgv, hdst⟩ := setDstLoop_ok _ _ _ hrun i _ hvi
      exact ⟨gv, hdst, rmGet_RInv _ _ _ k gv hinv hgv⟩

/-- Client with "a" cached and "b" only in the datastore. -/
def c7client : Client := ⟨[("a", vA), ("b", vB)], [("a", vA)], 1000, ["a"]⟩

/-- Witness for C7 on an interleaved cached/uncached input. -/
theorem c7_getmulti_positional_witness :
    (GetMulti c7client ["a", "b"] [none, none]).status = .ok ∧
    ∃ gv, (GetMulti c7client ["a", "b"] [none, none]).dst.get? 1 = some (some gv) ∧
      (mlookup c7client.Cache "b" = some gv ∨ mlookup c7client.store "b" = some gv) :=
  ⟨by decide,
   c7_getmulti_positional c7client ["a", "b"] [none, none] (by decide) 1 "b" (by decide)⟩

/-- An incomplete key, as produced by `datastore.IncompleteKey("testDelete", nil)`. -/
def c9key : GoKey := ⟨"/testDelete,0", false⟩

/-- C9, counterexample to the claim as stated: Delete performs no key
validation of its own — for an incomplete key it still calls the datastore
adapter's Delete (src/client.go line 295), whose invalid-key error is what
the caller sees; the claim says no adapter call is made. -/
theorem c9_delete_incomplete_key_calls_store :
    (Delete (initClient [("x", vA)] 1000) c9key).storeCalled = true ∧
    (Delete (initClient [("x", vA)] 1000) c9key).err = some .invalidKey := by decide

/-- C9, amended: for an incomplete key (whose canonical string is never a
cached key), Delete leaves the cache and the order structure unchanged and
fails with the datastore adapter's invalid-key error — but only after the
adapter call is attempted; no validation happens before I/O. -/
theorem c9_delete_incomplete_key (c : Client) (key : GoKey)
    (hinc : key.complete = false) (hc : mlookup c.Cache key.str = none) :
    (Delete c key).err = some .invalidKey ∧ (Delete c key).state = c ∧
    (Delete c key).storeCalled = true := by
  simp [Delete, hc, hinc]

/-- Witness for the amended C9 at a concrete incomplete key. -/
theorem c9_delete_incomplete_key_witness :
    (Delete (initClient [("x", vA)] 1000) ⟨"/testGet,0", false⟩).err
        = some .invalidKey ∧
    (Delete (initClient [("x", vA)] 1000) ⟨"/testGet,0", false⟩).state
        = initClient [("x", vA)] 1000 ∧
    (Delete (initClient [("x", vA)] 1000) ⟨"/testGet,0", false⟩).storeCalled = true :=
  c9_delete_incomplete_key (initClient [("x", vA)] 1000) ⟨"/testGet,0", false⟩
    (by decide) (by decide)

theorem parseDigits_all (ds : List Char) : ∀ acc, (∀ c ∈ ds, c.isDigit) →
    parseDigits ds acc = some (ds.foldl (fun a c => a * 10 + digitVal c) acc) := by
  induction ds with
  | nil => intro acc _; rfl
  | cons c cs ih =>
      intro acc h
      have hc : c.isDigit := h c (by simp)
      simp only [parseDigits, if_pos hc, List.foldl_cons]
      exact ih _ (fun d hd => h d (by simp [hd]))

theorem parseDigits_some_digits (ds : List Char) : ∀ acc u,
    parseDigits ds acc = some u → (∀ c ∈ ds, c.isDigit) ∧
      u = ds.foldl (fun a c => a * 10 + digitVal c) acc := by
  induction ds with
  | nil =>
      intro acc u h
      simp only [parseDigits] at h
      exact ⟨fun c hc => absurd hc (by simp), (Option.some.inj h).symm⟩
  | cons c cs ih =>
      intro acc u h
      simp only [parseDigits] at h
      by_cases hc : c.isDigit
      · rw [if_pos hc] at h
        obtain ⟨hall, hu⟩ := ih _ _ h
        refine ⟨?_, by simpa [List.foldl_cons] using hu⟩
        intro d hd
        rcases List.mem_cons.mp hd with rfl | hd
        · exact hc
        · exact hall d hd
      · rw [if_neg hc] at h
        cases h

theorem parseIntCore_some (ds : List Char) (neg : Bool) (n : Int)
    (h : parseIntCore ds neg = some n) :
    ds ≠ [] ∧ (∀ c ∈ ds, c.isDigit) ∧
      ((neg = true ∧ n = -(decimalVal ds : Int) ∧ decimalVal ds ≤ 2 ^ 31) ∨
       (neg = false ∧ n = (decimalVal ds : Int) ∧ decimalVal ds < 2 ^ 31)) := by
  rcases ds with _ | ⟨c, cs⟩
  · simp [parseIntCore] at h
  · simp only [parseIntCore] at h
    rcases hpd : parseDigits (c :: cs) 0 with _ | un
    · rw [hpd] at h; cases h
    · rw [hpd] at h
      obtain ⟨hall, hu⟩ := parseDigits_some_digits _ _ _ hpd
      have hdv : un = decimalVal (c :: cs) := hu
      refine ⟨by simp, hall, ?_⟩
      cases neg
      · have h2 : (if un ≥ 2 ^ 31 then none else some ((un : Int))) = some n := h
        by_cases hb : un ≥ 2 ^ 31
        · rw [if_pos hb] at h2; cases h2
        · rw [if_neg hb] at h2
          exact Or.inr ⟨rfl, by rw [← (Option.some.inj h2), hdv], by omega⟩
      · have h2 : (if un > 2 ^ 31 then none else some (-(un : Int))) = some n := h
        by_cases hb : un > 2 ^ 31
        · rw [if_pos hb] at h2; cases h2
        · rw [if_neg hb] at h2
          exact Or.inl ⟨rfl, by rw [← (Option.some.inj h2), hdv], by omega⟩

theorem parseIntCore_pos (ds : List Char) (hne : ds ≠ [])
    (hdig : ∀ c ∈ ds, c.isDigit) (hb : decimalVal ds < 2 ^ 31) :
    parseIntCore ds false = some (decimalVal ds : Int) := by
  rcases ds with _ | ⟨c, cs⟩
  · exact absurd rfl hne
  · simp only [parseIntCore]
    rw [parseDigits_all _ 0 hdig]
    show (if decimalVal (c :: cs) ≥ 2 ^ 31 then none
        else some ((decimalVal (c :: cs) : Int))) = some ((decimalVal (c :: cs) : Int))
    rw [if_neg (Nat.not_le.mpr hb)]

theorem parseIntCore_neg (ds : List Char) (hne : ds ≠ [])
    (hdig : ∀ c ∈ ds, c.isDigit) (hb : decimalVal ds ≤ 2 ^ 31) :
    parseIntCore ds true = some (-(decimalVal ds : Int)) := by
  rcases ds with _ | ⟨c, cs⟩
  · exact absurd rfl hne
  · simp only [parseIntCore]
    rw [parseDigits_all _ 0 hdig]
    show (if decimalVal (c :: cs) > 2 ^ 31 then none
        else some (-(decimalVal (c :: cs) : Int))) = some (-(decimalVal (c :: cs) : Int))
    rw [if_neg (Nat.not_lt.mpr hb)]

theorem parseInt32_of_repr (s : String) (n : Int) (h : isInt32Repr s n) :
    parseInt32 s = some n := by
  obtain ⟨ds, hne, hdig, hcase, hlo, hhi⟩ := h
  rcases hcase with ⟨hform | hform, hn⟩ | ⟨hform, hn⟩
  · -- unsigned form: s.toList = ds, which starts with a digit
    rcases hds : ds with _ | ⟨c, cs⟩
    · exact absurd hds hne
    · subst hds
      have hcdig : c.isDigit := hdig c (by simp)
      have hcm : c ≠ '-' := by
        intro hEq; rw [hEq] at hcdig; exact absurd hcdig (by decide)
      have hcp : c ≠ '+' := by
        intro hEq; rw [hEq] at hcdig; exact absurd hcdig (by decide)
      simp only [parseInt32]
      rw [hform]
      show (if c = '-' then parseIntCore cs true
          else if c = '+' then parseIntCore cs false
          else parseIntCore (c :: cs) false) = some n
      rw [if_neg hcm, if_neg hcp]
      have hb : decimalVal (c :: cs) < 2 ^ 31 := by omega
      rw [parseIntCore_pos _ hne hdig hb, hn]
  · -- "+" form: s.toList = '+' :: ds
    simp only [parseInt32]
    rw [hform]
    show (if '+' = '-' then parseIntCore ds true
        else if '+' = '+' then parseIntCore ds false
        else parseIntCore ('+' :: ds) false) = some n
    rw [if_neg (by decide), if_pos rfl]
    have hb : decimalVal ds < 2 ^ 31 := by omega
    rw [parseIntCore_pos _ hne hdig hb, hn]
  · -- "-" form: s.toList = '-' :: ds
    simp only [parseInt32]
    rw [hform]
    show (if '-' = '-' then parseIntCore ds true
        else if '-' = '+' then parseIntCore ds false
        else parseIntCore ('-' :: ds) false) = some n
    rw [if_pos rfl]
    have hb : decimalVal ds ≤ 2 ^ 31 := by omega
    rw [parseIntCore_neg _ hne hdig hb, hn]

theorem repr_of_parseInt32 (s : String) (n : Int) (h : parseInt32 s = some n) :
    isInt32Repr s n := by
  rcases hs : s.toList with _ | ⟨c, cs⟩
  · simp only [parseInt32, hs] at h; cases h
  · simp only [parseInt32, hs] at h
    by_cases hneg : c = '-'
    · rw [if_pos hneg] at h
      obtain ⟨hne, hdig, hcase⟩ := parseIntCore_some cs true n h
      rcases hcase with ⟨-, hn, hb⟩ | ⟨habs, -, -⟩
      · refine ⟨cs, hne, hdig, Or.inr ⟨by rw [hs, hneg], hn⟩, by omega, by omega⟩
      · cases habs
    · rw [if_neg hneg] at h
      by_cases hplus : c = '+'
      · rw [if_pos hplus] at h
        obtain ⟨hne, hdig, hcase⟩ := parseIntCore_some cs false n h
        rcases hcase with ⟨habs, -, -⟩ | ⟨-, hn, hb⟩
        · cases habs
        · refine ⟨cs, hne, hdig, Or.inl ⟨Or.inr (by rw [hs, hplus]), hn⟩,
            by omega, by omega⟩
      · rw [if_neg hplus] at h
        obtain ⟨hne, hdig, hcase⟩ := parseIntCore_some (c :: cs) false n h
        rcases hcase with ⟨habs, -, -⟩ | ⟨-, hn, hb⟩
        · cases habs
        · exact ⟨c :: cs, by simp, hdig, Or.inl ⟨Or.inl hs, hn⟩, by omega, by omega⟩

/-- C10, counterexample to the claim as stated: "-1" parses as the 32-bit
integer -1, but NewClient does not return a client with MaxCacheSize = -1:
`make([]string, 0, -1)` panics at run time (Go requires a non-negative
capacity), so negative values are not accepted. -/
theorem c10_negative_size_not_accepted :
    parseInt32 "-1" = some (-1) ∧
    newClientMaxCacheSize "-1" = .panicked ∧
    newClientMaxCacheSize "-1" ≠ .client (-1) := by decide

/-- C10, amended: with the variable unset (empty) MaxCacheSize defaults to
1000; a string representing a non-negative 32-bit integer (zero included)
yields a client with that MaxCacheSize; a string representing a negative
32-bit integer makes NewClient panic while allocating the key slice, so no
client is returned; any other non-empty string makes NewClient return the
parse error and no client. -/
theorem c10_newclient_max_cache_size :
    newClientMaxCacheSize "" = .client 1000 ∧
    (∀ s n, isInt32Repr s n → 0 ≤ n → newClientMaxCacheSize s = .client n) ∧
    (∀ s n, isInt32Repr s n → n < 0 → newClientMaxCacheSize s = .panicked) ∧
    (∀ s, s ≠ "" → (∀ n, ¬ isInt32Repr s n) → newClientMaxCacheSize s = .err) := by
  have hsne : ∀ s n, isInt32Repr s n → s ≠ "" := by
    intro s n hr hEq
    obtain ⟨ds, hne, -, hcase, -⟩ := hr
    subst hEq
    rcases hcase with ⟨hf | hf, -⟩ | ⟨hf, -⟩
    · exact hne (by simpa using hf.symm)
    · exact absurd hf (by simp)
    · exact absurd hf (by simp)
  refine ⟨rfl, ?_, ?_, ?_⟩
  · intro s n hr hn
    have hp := parseInt32_of_repr s n hr
    simp only [newClientMaxCacheSize, if_neg (hsne s n hr), hp]
    rw [if_neg (by omega)]
  · intro s n hr hn
    have hp := parseInt32_of_repr s n hr
    simp only [newClientMaxCacheSize, if_neg (hsne s n hr), hp]
    rw [if_pos hn]
  · intro s hs hnone
    rcases hp : parseInt32 s with _ | n
    · simp [newClientMaxCacheSize, hs, hp]
    · exact absurd (repr_of_parseInt32 s n hp) (hnone n)

/-- Witness for the amended C10 on "12", "-7" and "abc". -/
theorem c10_newclient_max_cache_size_witness :
    newClientMaxCacheSize "12" = .client 12 ∧
    newClientMaxCacheSize "-7" = .panicked ∧
    newClientMaxCacheSize "abc" = .err := by
  refine ⟨c10_newclient_max_cache_size.2.1 "12" 12
      ⟨['1', '2'], by decide, by decide,
        Or.inl ⟨Or.inl rfl, by decide⟩, by decide, by decide⟩ (by decide),
    c10_newclient_max_cache_size.2.2.1 "-7" (-7)
      ⟨['7'], by decide, by decide,
        Or.inr ⟨rfl, by decide⟩, by decide, by decide⟩ (by decide),
    c10_newclient_max_cache_size.2.2.2 "abc" (by decide) ?_⟩
  intro n h
  obtain ⟨ds, hne, hdig, hcase, -⟩ := h
  rcases hcase with ⟨hf | hf, -⟩ | ⟨hf, -⟩
  · have hf' : ('a' :: 'b' :: 'c' :: []) = ds := hf
    subst hf'
    exact absurd (hdig 'a' (by simp)) (by decide)
  · have hf' : ('a' :: 'b' :: 'c' :: []) = '+' :: ds := hf
    have : 'a' = '+' := (List.cons.injEq _ _ _ _ ▸ hf').1
    exact absurd this (by decide)
  · have hf' : ('a' :: 'b' :: 'c' :: []) = '-' :: ds := hf
    have : 'a' = '-' := (List.cons.injEq _ _ _ _ ▸ hf').1
    exact absurd this (by decide)

end Godscache
